import Mathlib

/-!
# Verification of the `mono-macro` crate (`src/lib.rs`)

Shallow embedding of the two procedural macros of the crate:

* `mono` (the Attribute Transform, `src/lib.rs` lines 95-129): parses the
  attribute argument list as `TypeEqs`, matches the entries against the
  annotated function's generic parameters in declared order, and emits
  `pub const _: *const () = (&f::<args,>) as *const _ as _;` followed by the
  original, untouched function token stream; a type parameter without a
  matching entry aborts the expansion with the compile error
  "all the type parameters should be spelled out" placed at the span of the
  function signature.

* `mono_macro` (the Path Transform, `src/lib.rs` lines 159-164): parses its
  input as a `syn::TypePath` and emits
  `pub const _: *const () = (&path) as *const _ as _;`.

Token streams are modelled as lists of `Tok`; the `syn` entry points that the
crate defines itself (`TypeOrLifetime`, `TypeEqTo`, `TypeEqs`, lines 171-213)
are embedded as explicit recursive-descent parsers over `List Tok`, with
`syn`'s `parse_terminated` semantics (elements separated by commas, trailing
comma allowed, empty list allowed).  The external `syn` parsers for whole
items (`ItemFn`, `TypePath`) are not part of this repository; a successfully
parsed `ItemFn` is represented by the data the transform reads from it (its
identifier, its generic parameters, the span of its signature) together with
the verbatim token stream that is passed through, and the `TypePath` parser
is a parameter of the embedded `mono_macro`.
-/

namespace MonoMacro

/-- A single token of a (flattened) proc-macro token stream.  Identifiers and
lifetimes carry their name; the punctuation used by the crate's grammar and
by its emitted declarations gets one constructor each (`::` is two `colon`
tokens, matching its two-`Punct` representation in a `TokenStream`). -/
inductive Tok where
  | ident (s : String)
  | lifetime (s : String)
  | eq
  | comma
  | colon
  | semi
  | star
  | amp
  | lt
  | gt
  | lparen
  | rparen
  deriving DecidableEq, Repr

/-- `enum TypeOrLifetime` (lib.rs 197-201): either a concrete type
identifier or a concrete lifetime. -/
inductive TypeOrLifetime where
  | type (i : String)
  | lifetime (l : String)
  deriving DecidableEq, Repr

/-- `ToTokens for TypeOrLifetime` (lib.rs 218-225). -/
def TypeOrLifetime.toTok : TypeOrLifetime → Tok
  | .type i => .ident i
  | .lifetime l => .lifetime l

/-- `struct TypeEqTo` (lib.rs 180-185): one `name = value` substitution
entry; `type_or_lifetime` is the left-hand side, `param` the replacement. -/
structure TypeEqTo where
  type_or_lifetime : TypeOrLifetime
  param : TypeOrLifetime
  deriving DecidableEq, Repr

/-- `struct TypeEqs` (lib.rs 167-169): the parsed substitution list. -/
structure TypeEqs where
  eqs : List TypeEqTo
  deriving DecidableEq, Repr

/-- A parse failure (`syn::Error` from a `Lookahead1::error` or an
unexpected token); it records the remaining input at the point of failure,
which is the span information `syn` attaches to the error. -/
structure ParseErr where
  rest : List Tok
  deriving DecidableEq, Repr

/-- `Parse for TypeOrLifetime` (lib.rs 203-214): lookahead — a lifetime
token parses as `Lifetime`, an identifier as `Type`, anything else is a
`ParseError` at that token. -/
def parseTypeOrLifetime : List Tok → Except ParseErr (TypeOrLifetime × List Tok)
  | .lifetime l :: rest => .ok (.lifetime l, rest)
  | .ident i :: rest => .ok (.type i, rest)
  | rest => .error ⟨rest⟩

/-- `Parse for TypeEqTo` (lib.rs 187-195): `<name-or-lifetime> '='
<name-or-lifetime>`, in that order. -/
def parseTypeEqTo (toks : List Tok) : Except ParseErr (TypeEqTo × List Tok) :=
  match parseTypeOrLifetime toks with
  | .error e => .error e
  | .ok (a, r1) =>
    match r1 with
    | .eq :: r2 =>
      match parseTypeOrLifetime r2 with
      | .error e => .error e
      | .ok (b, r3) => .ok (⟨a, b⟩, r3)
    | r1 => .error ⟨r1⟩

/-- A successful `parseTypeEqTo` consumes exactly three tokens. -/
def parseTypeEqTo_length {toks : List Tok} {e : TypeEqTo} {r : List Tok}
    (h : parseTypeEqTo toks = .ok (e, r)) : r.length + 3 = toks.length := by
  match toks with
  | [] => simp [parseTypeEqTo, parseTypeOrLifetime] at h
  | .lifetime a :: r1 | .ident a :: r1 =>
    match r1 with
    | [] => simp [parseTypeEqTo, parseTypeOrLifetime] at h
    | .eq :: r2 =>
      match r2 with
      | [] => simp [parseTypeEqTo, parseTypeOrLifetime] at h
      | .lifetime b :: r3 | .ident b :: r3 =>
        simp [parseTypeEqTo, parseTypeOrLifetime] at h
        simp [h.2, List.length]
      | .eq :: r3 | .comma :: r3 | .colon :: r3 | .semi :: r3 | .star :: r3
      | .amp :: r3 | .lt :: r3 | .gt :: r3 | .lparen :: r3 | .rparen :: r3 =>
        simp [parseTypeEqTo, parseTypeOrLifetime] at h
    | .ident _ :: r2 | .lifetime _ :: r2 | .comma :: r2 | .colon :: r2
    | .semi :: r2 | .star :: r2 | .amp :: r2 | .lt :: r2 | .gt :: r2
    | .lparen :: r2 | .rparen :: r2 =>
      simp [parseTypeEqTo, parseTypeOrLifetime] at h
  | .eq :: r1 | .comma :: r1 | .colon :: r1 | .semi :: r1 | .star :: r1
  | .amp :: r1 | .lt :: r1 | .gt :: r1 | .lparen :: r1 | .rparen :: r1 =>
    simp [parseTypeEqTo, parseTypeOrLifetime] at h

/-- `Parse for TypeEqs` via `input.parse_terminated(TypeEqTo::parse)`
(lib.rs 171-177): zero or more `TypeEqTo` separated by commas, trailing
comma permitted, parsing stops exactly at end of input. -/
def parseTypeEqsAux (toks : List Tok) : Except ParseErr (List TypeEqTo) :=
  match toks with
  | [] => .ok []
  | t :: ts =>
    match h : parseTypeEqTo (t :: ts) with
    | .error e => .error e
    | .ok (e, r) =>
      match r with
      | [] => .ok [e]
      | .comma :: r2 => (parseTypeEqsAux r2).map (e :: ·)
      | x :: xs => .error ⟨x :: xs⟩
termination_by toks.length
decreasing_by
  have := parseTypeEqTo_length h
  simp_all [List.length]
  omega

/-- The attribute-argument parser: `parse_macro_input!(attr as TypeEqs)`. -/
def parseTypeEqs (toks : List Tok) : Except ParseErr TypeEqs :=
  (parseTypeEqsAux toks).map TypeEqs.mk

/-- `syn::GenericParam`: one generic parameter of the annotated function,
in declared order — a type parameter (with its identifier), a lifetime
parameter (with its lifetime name), or a const parameter. -/
inductive GenericParam where
  | type (ident : String)
  | lifetime (l : String)
  | const (ident : String)
  deriving DecidableEq, Repr

/-- The data `mono` reads out of a successfully parsed `ItemFn`
(lib.rs 98-101): the signature's identifier, its generic parameters in
declared order, the span of the signature (`fn_sig.span()`, the target of
the incompleteness diagnostic), and the verbatim token stream of the whole
item, which `expand.extend(func)` appends untouched.  Parsing an `ItemFn`
out of raw tokens is done by `syn`, outside this repository. -/
structure ItemFn where
  toks : List Tok
  fnIdent : String
  generics : List GenericParam
  sigSpan : Nat
  deriving DecidableEq, Repr

/-- The `find` predicate of `mono`'s matching loop (lib.rs 108-112): a
substitution entry matches a generic parameter only when both are the
type/identifier case and the identifiers agree.  The arm matching a
lifetime parameter against a lifetime entry is commented out in the source
(lib.rs 109), so lifetime entries and lifetime parameters never match. -/
def matchEq (g : GenericParam) (e : TypeEqTo) : Bool :=
  match g, e.type_or_lifetime with
  | .type t1, .type t2 => t1 == t2
  | _, _ => false

/-- The matching loop of `mono` (lib.rs 103-121): walk the generic
parameters in declared order; a matched parameter contributes the found
entry's `param` (replacement); an unmatched type parameter aborts with the
incomplete-instantiation error (`none`); an unmatched lifetime or const
parameter is skipped. -/
def monoParams : List GenericParam → List TypeEqTo → Option (List TypeOrLifetime)
  | [], _ => some []
  | g :: gs, eqs =>
    match eqs.find? (matchEq g) with
    | some e => (monoParams gs eqs).map (e.param :: ·)
    | none =>
      match g with
      | .type _ => none
      | _ => monoParams gs eqs

/-- An expansion failure of the `mono` attribute: a `ParseError` from the
attribute-argument parser, or the incomplete-instantiation compile error,
which carries the span it is reported at and its message (lib.rs 116). -/
inductive MonoErr where
  | parseErr (e : ParseErr)
  | incomplete (span : Nat) (msg : String)
  deriving DecidableEq, Repr

/-- The constant declaration emitted by `mono` (lib.rs 123-125):
`pub const _: *const () = (&f::<p1, p2, …,>) as *const _ as _;` — note the
`quote!` repetition `#(#params,)*` puts a comma after every argument. -/
def emitMonoConst (f : String) (params : List TypeOrLifetime) : List Tok :=
  [.ident "pub", .ident "const", .ident "_", .colon, .star, .ident "const",
   .lparen, .rparen, .eq, .lparen, .amp, .ident f, .colon, .colon, .lt]
  ++ (params.map fun p => [p.toTok, Tok.comma]).flatten
  ++ [.gt, .rparen, .ident "as", .star, .ident "const", .ident "_",
      .ident "as", .ident "_", .semi]

/-- `pub fn mono(attr, func)` (lib.rs 95-129): parse the attribute
arguments as `TypeEqs`, run the matching loop over the (already parsed)
function's generic parameters, and on success emit the forcing constant
declaration immediately followed by the original function tokens.  An
unmatched type parameter yields the compile error
"all the type parameters should be spelled out" at the span of the
function signature, and nothing is emitted. -/
def mono (attr : List Tok) (f : ItemFn) : Except MonoErr (List Tok) :=
  match parseTypeEqs attr with
  | .error e => .error (.parseErr e)
  | .ok mono_attr =>
    match monoParams f.generics mono_attr.eqs with
    | none => .error (.incomplete f.sigSpan "all the type parameters should be spelled out")
    | some params => .ok (emitMonoConst f.fnIdent params ++ f.toks)

/-- A successfully parsed `syn::TypePath`, kept as its verbatim token
stream: `mono_macro` inspects no internal structure of the path, it only
splices the tokens back out. -/
structure TypePath where
  toks : List Tok
  deriving DecidableEq, Repr

/-- The part of the `mono_macro` output that precedes the path tokens:
`pub const _: *const () = (&`. -/
def pathConstHead : List Tok :=
  [.ident "pub", .ident "const", .ident "_", .colon, .star, .ident "const",
   .lparen, .rparen, .eq, .lparen, .amp]

/-- The part of the `mono_macro` output that follows the path tokens:
`) as *const _ as _;`. -/
def pathConstTail : List Tok :=
  [.rparen, .ident "as", .star, .ident "const", .ident "_", .ident "as",
   .ident "_", .semi]

/-- The constant declaration emitted by `mono_macro` (lib.rs 161-163):
`pub const _: *const () = (&path) as *const _ as _;` with the path tokens
spliced verbatim. -/
def emitPathConst (path : List Tok) : List Tok :=
  pathConstHead ++ path ++ pathConstTail

/-- `pub fn mono_macro(input)` (lib.rs 158-164), embedded as `monoMacro`:
`parse_macro_input!(input as TypePath)` — the `TypePath` grammar itself
lives in `syn`, outside this repository, so the parser is taken as a
parameter — then emit the forcing constant declaration for the parsed
path.  A parse failure is returned as the diagnostic, with no declaration
emitted. -/
def monoMacro (parsePath : List Tok → Except ParseErr TypePath)
    (input : List Tok) : Except ParseErr (List Tok) :=
  match parsePath input with
  | .error e => .error e
  | .ok path => .ok (emitPathConst path.toks)

/-- The left-hand identifier of a substitution entry when that left-hand
side is a type identifier (the key the matching loop compares against a
type parameter); `none` for a lifetime left-hand side. -/
def lhsTypeIdent : TypeEqTo → Option String
  | ⟨.type i, _⟩ => some i
  | _ => none

/-- Modelled from the spec (grammar of the Argument Parser, for comparison
with the parser embedded from the source): a token is a valid side of an
entry when it is an identifier or a lifetime. -/
def isSideTok : Tok → Bool
  | .ident _ => true
  | .lifetime _ => true
  | _ => false

/-- Modelled from the spec (grammar of the Argument Parser, for comparison
with the parser embedded from the source): comma-separated entries of the
form `side '=' side`, trailing comma permitted, empty list permitted. -/
def specArgGrammar : List Tok → Bool
  | [] => true
  | [a, e1, b] => isSideTok a && (e1 == Tok.eq) && isSideTok b
  | a :: e1 :: b :: c :: r =>
    isSideTok a && (e1 == Tok.eq) && isSideTok b && (c == Tok.comma) &&
      specArgGrammar r
  | _ => false

/-! ## General lemmas about the embedded definitions -/

theorem isSideTok_toTok (v : TypeOrLifetime) : isSideTok v.toTok = true := by
  cases v <;> rfl

theorem matchEq_lifetime_param (l : String) (e : TypeEqTo) :
    matchEq (.lifetime l) e = false := by
  rcases e with ⟨lhs, p⟩
  cases lhs <;> rfl

theorem matchEq_const_param (c : String) (e : TypeEqTo) :
    matchEq (.const c) e = false := by
  rcases e with ⟨lhs, p⟩
  cases lhs <;> rfl

theorem matchEq_lifetime_lhs (g : GenericParam) (l : String) (v : TypeOrLifetime) :
    matchEq g ⟨.lifetime l, v⟩ = false := by
  cases g <;> rfl

theorem find?_matchEq_lifetime (l : String) (eqs : List TypeEqTo) :
    eqs.find? (matchEq (.lifetime l)) = none := by
  rw [List.find?_eq_none]
  intro x _
  simp [matchEq_lifetime_param]

theorem find?_matchEq_const (c : String) (eqs : List TypeEqTo) :
    eqs.find? (matchEq (.const c)) = none := by
  rw [List.find?_eq_none]
  intro x _
  simp [matchEq_const_param]

theorem monoParams_isSome_iff (gs : List GenericParam) (eqs : List TypeEqTo) :
    (monoParams gs eqs).isSome = true ↔
      ∀ i, GenericParam.type i ∈ gs → (eqs.find? (matchEq (.type i))).isSome = true := by
  induction gs with
  | nil => simp [monoParams]
  | cons g gs ih =>
    cases g with
    | type j =>
      cases hf : eqs.find? (matchEq (.type j)) with
      | some e =>
        have hm : monoParams (GenericParam.type j :: gs) eqs
            = (monoParams gs eqs).map (e.param :: ·) := by
          simp [monoParams, hf]
        rw [hm, Option.isSome_map']
        rw [ih]
        constructor
        · intro h i hi
          rcases List.mem_cons.mp hi with hij | hi2
          · cases hij
            rw [hf]
            rfl
          · exact h i hi2
        · intro h i hi
          exact h i (List.mem_cons_of_mem _ hi)
      | none =>
        have hm : monoParams (GenericParam.type j :: gs) eqs = none := by
          simp [monoParams, hf]
        rw [hm]
        constructor
        · intro hs
          cases hs
        · intro hall
          have := hall j (List.mem_cons_self _ _)
          rw [hf] at this
          cases this
    | lifetime l =>
      have hm : monoParams (GenericParam.lifetime l :: gs) eqs = monoParams gs eqs := by
        simp [monoParams, find?_matchEq_lifetime]
      rw [hm, ih]
      constructor
      · intro h i hi
        rcases List.mem_cons.mp hi with hij | hi2
        · cases hij
        · exact h i hi2
      · intro h i hi
        exact h i (List.mem_cons_of_mem _ hi)
    | const c =>
      have hm : monoParams (GenericParam.const c :: gs) eqs = monoParams gs eqs := by
        simp [monoParams, find?_matchEq_const]
      rw [hm, ih]
      constructor
      · intro h i hi
        rcases List.mem_cons.mp hi with hij | hi2
        · cases hij
        · exact h i hi2
      · intro h i hi
        exact h i (List.mem_cons_of_mem _ hi)

theorem monoParams_eq_filterMap (gs : List GenericParam) (eqs : List TypeEqTo)
    (ps : List TypeOrLifetime) (h : monoParams gs eqs = some ps) :
    ps = gs.filterMap fun g => (eqs.find? (matchEq g)).map TypeEqTo.param := by
  induction gs generalizing ps with
  | nil =>
    simp only [monoParams, Option.some.injEq] at h
    simp [← h]
  | cons g gs ih =>
    cases hf : eqs.find? (matchEq g) with
    | some e =>
      have hm : monoParams (g :: gs) eqs = (monoParams gs eqs).map (e.param :: ·) := by
        simp [monoParams, hf]
      rw [hm] at h
      rcases hmap : monoParams gs eqs with _ | ps0
      · rw [hmap] at h
        cases h
      · rw [hmap, Option.map_some'] at h
        rcases Option.some.inj h with rfl
        simp [List.filterMap_cons, hf, ih ps0 hmap]
    | none =>
      cases g with
      | type j =>
        have hm : monoParams (GenericParam.type j :: gs) eqs = none := by
          simp [monoParams, hf]
        rw [hm] at h
        cases h
      | lifetime l =>
        have hm : monoParams (GenericParam.lifetime l :: gs) eqs = monoParams gs eqs := by
          simp [monoParams, hf]
        rw [hm] at h
        simp [List.filterMap_cons, hf, ih ps h]
      | const c =>
        have hm : monoParams (GenericParam.const c :: gs) eqs = monoParams gs eqs := by
          simp [monoParams, hf]
        rw [hm] at h
        simp [List.filterMap_cons, hf, ih ps h]

theorem monoParams_split_none (gs1 : List GenericParam) (i : String)
    (gs2 : List GenericParam) (eqs : List TypeEqTo)
    (hbefore : ∀ j, GenericParam.type j ∈ gs1 →
      (eqs.find? (matchEq (.type j))).isSome = true)
    (hmiss : eqs.find? (matchEq (.type i)) = none) :
    monoParams (gs1 ++ GenericParam.type i :: gs2) eqs = none := by
  induction gs1 with
  | nil => simp [monoParams, hmiss]
  | cons g gs1 ih =>
    have ih2 := ih fun j hj => hbefore j (List.mem_cons_of_mem _ hj)
    cases g with
    | type j =>
      have := hbefore j (List.mem_cons_self _ _)
      rcases hf : eqs.find? (matchEq (.type j)) with _ | e
      · rw [hf] at this; cases this
      · simp [monoParams, hf, ih2]
    | lifetime l =>
      simp [monoParams, find?_matchEq_lifetime, ih2]
    | const c =>
      simp [monoParams, find?_matchEq_const, ih2]

theorem monoParams_skip_lifetime (gs1 gs2 : List GenericParam) (l : String)
    (eqs : List TypeEqTo) :
    monoParams (gs1 ++ GenericParam.lifetime l :: gs2) eqs
      = monoParams (gs1 ++ gs2) eqs := by
  induction gs1 with
  | nil => simp [monoParams, find?_matchEq_lifetime]
  | cons g gs1 ih =>
    cases hf : eqs.find? (matchEq g) with
    | some e => simp [monoParams, hf, ih]
    | none => cases g <;> simp [monoParams, hf, ih]

theorem matchEq_true_iff (g : GenericParam) (e : TypeEqTo) :
    matchEq g e = true ↔ ∃ i, g = .type i ∧ lhsTypeIdent e = some i := by
  rcases e with ⟨lhs, p⟩
  cases g with
  | type t1 =>
    cases lhs with
    | type t2 =>
      simp only [matchEq, lhsTypeIdent, beq_iff_eq, GenericParam.type.injEq,
        Option.some.injEq]
      constructor
      · intro h
        exact ⟨t2, h, rfl⟩
      · rintro ⟨i, h1, h2⟩
        exact h1.trans h2.symm
    | lifetime l2 =>
      simp [matchEq, lhsTypeIdent]
  | lifetime l1 => simp [matchEq_lifetime_param, lhsTypeIdent]
  | const c1 => simp [matchEq_const_param, lhsTypeIdent]

theorem lhs_unique_of_nodup (eqs : List TypeEqTo)
    (h : (eqs.filterMap lhsTypeIdent).Nodup) :
    ∀ x ∈ eqs, ∀ y ∈ eqs, ∀ g, matchEq g x = true → matchEq g y = true → x = y := by
  induction eqs with
  | nil => intro x hx; cases hx
  | cons a t ih =>
    intro x hx y hy g hgx hgy
    rcases (matchEq_true_iff g x).mp hgx with ⟨i, hgi, hxi⟩
    rcases (matchEq_true_iff g y).mp hgy with ⟨i2, hgi2, hyi⟩
    rw [hgi] at hgi2
    cases hgi2
    have hnt : (t.filterMap lhsTypeIdent).Nodup := by
      rcases ha : lhsTypeIdent a with _ | j
      · rw [List.filterMap_cons, ha] at h; exact h
      · rw [List.filterMap_cons, ha] at h; exact h.of_cons
    rcases List.mem_cons.mp hx with rfl | hx2
    · rcases List.mem_cons.mp hy with rfl | hy2
      · rfl
      · exfalso
        rw [List.filterMap_cons, hxi] at h
        exact (List.nodup_cons.mp h).1 (List.mem_filterMap.mpr ⟨y, hy2, hyi⟩)
    · rcases List.mem_cons.mp hy with rfl | hy2
      · exfalso
        rw [List.filterMap_cons, hyi] at h
        exact (List.nodup_cons.mp h).1 (List.mem_filterMap.mpr ⟨x, hx2, hxi⟩)
      · exact ih hnt x hx2 y hy2 g hgx hgy

theorem find?_congr_perm {α : Type} (p : α → Bool) {l l2 : List α} (hp : l.Perm l2)
    (huniq : ∀ x ∈ l, ∀ y ∈ l, p x = true → p y = true → x = y) :
    l.find? p = l2.find? p := by
  cases h2 : l2.find? p with
  | none =>
    rw [List.find?_eq_none] at h2 ⊢
    intro x hx
    exact h2 x (hp.mem_iff.mp hx)
  | some a =>
    have ha2 : a ∈ l2 := List.mem_of_find?_eq_some h2
    have hpa : p a = true := List.find?_some h2
    have ha : a ∈ l := hp.mem_iff.mpr ha2
    have hs : (l.find? p).isSome = true := List.find?_isSome.mpr ⟨a, ha, hpa⟩
    rcases hb : l.find? p with _ | b
    · rw [hb] at hs; cases hs
    · have hbl : b ∈ l := List.mem_of_find?_eq_some hb
      have hpb : p b = true := List.find?_some hb
      rw [huniq b hbl a ha hpb hpa]

theorem parseTypeEqsAux_cons (t : Tok) (ts : List Tok) :
    parseTypeEqsAux (t :: ts) =
      match parseTypeEqTo (t :: ts) with
      | .error e => .error e
      | .ok (e, r) =>
        match r with
        | [] => .ok [e]
        | .comma :: r2 => (parseTypeEqsAux r2).map (e :: ·)
        | x :: xs => .error ⟨x :: xs⟩ := by
  rw [parseTypeEqsAux]
  split
  · rename_i h2
    rw [h2]
  · rename_i e r h2
    simp only [h2]
    rcases r with _ | ⟨x, xs⟩
    · rfl
    · cases x <;> rfl

theorem parseTypeEqTo_ok_shape {toks : List Tok} {e : TypeEqTo} {r : List Tok} :
    parseTypeEqTo toks = .ok (e, r) ↔
      toks = e.type_or_lifetime.toTok :: Tok.eq :: e.param.toTok :: r := by
  constructor
  · intro h
    match toks with
    | [] => simp [parseTypeEqTo, parseTypeOrLifetime] at h
    | .lifetime a :: r1 | .ident a :: r1 =>
      match r1 with
      | [] => simp [parseTypeEqTo, parseTypeOrLifetime] at h
      | .eq :: r2 =>
        match r2 with
        | [] => simp [parseTypeEqTo, parseTypeOrLifetime] at h
        | .lifetime b :: r3 | .ident b :: r3 =>
          simp only [parseTypeEqTo, parseTypeOrLifetime, Except.ok.injEq,
            Prod.mk.injEq] at h
          rcases h with ⟨rfl, rfl⟩
          rfl
        | .eq :: r3 | .comma :: r3 | .colon :: r3 | .semi :: r3 | .star :: r3
        | .amp :: r3 | .lt :: r3 | .gt :: r3 | .lparen :: r3 | .rparen :: r3 =>
          simp [parseTypeEqTo, parseTypeOrLifetime] at h
      | .ident x :: r2 | .lifetime x :: r2 | .comma :: r2 | .colon :: r2
      | .semi :: r2 | .star :: r2 | .amp :: r2 | .lt :: r2 | .gt :: r2
      | .lparen :: r2 | .rparen :: r2 =>
        simp [parseTypeEqTo, parseTypeOrLifetime] at h
    | .eq :: r1 | .comma :: r1 | .colon :: r1 | .semi :: r1 | .star :: r1
    | .amp :: r1 | .lt :: r1 | .gt :: r1 | .lparen :: r1 | .rparen :: r1 =>
      simp [parseTypeEqTo, parseTypeOrLifetime] at h
  · intro h
    subst h
    rcases e with ⟨a, b⟩
    cases a <;> cases b <;> rfl

theorem isSideTok_shape {t : Tok} (h : isSideTok t = true) :
    ∃ v : TypeOrLifetime, t = v.toTok := by
  cases t
  case ident s => exact ⟨.type s, rfl⟩
  case lifetime s => exact ⟨.lifetime s, rfl⟩
  all_goals simp [isSideTok] at h

theorem specArgGrammar_true_shape {t : Tok} {ts : List Tok}
    (h : specArgGrammar (t :: ts) = true) :
    ∃ (a b : TypeOrLifetime) (r : List Tok),
      t :: ts = a.toTok :: Tok.eq :: b.toTok :: r := by
  cases ts with
  | nil => simp [specArgGrammar] at h
  | cons u us =>
    cases us with
    | nil => simp [specArgGrammar] at h
    | cons v vs =>
      cases vs with
      | nil =>
        simp only [specArgGrammar, Bool.and_eq_true, beq_iff_eq] at h
        obtain ⟨⟨ha, rfl⟩, hb⟩ := h
        obtain ⟨a, rfl⟩ := isSideTok_shape ha
        obtain ⟨b, rfl⟩ := isSideTok_shape hb
        exact ⟨a, b, [], rfl⟩
      | cons w ws =>
        simp only [specArgGrammar, Bool.and_eq_true, beq_iff_eq] at h
        obtain ⟨⟨⟨⟨ha, rfl⟩, hb⟩, hw⟩, hrec⟩ := h
        obtain ⟨a, rfl⟩ := isSideTok_shape ha
        obtain ⟨b, rfl⟩ := isSideTok_shape hb
        exact ⟨a, b, w :: ws, rfl⟩

theorem parseTypeEqTo_error_suffix {toks : List Tok} {err : ParseErr}
    (h : parseTypeEqTo toks = .error err) : err.rest <:+ toks := by
  match toks with
  | [] =>
    simp [parseTypeEqTo, parseTypeOrLifetime] at h
    subst h
    exact List.nil_suffix
  | .lifetime a :: r1 | .ident a :: r1 =>
    match r1 with
    | [] =>
      simp [parseTypeEqTo, parseTypeOrLifetime] at h
      subst h
      exact List.nil_suffix
    | .eq :: r2 =>
      match r2 with
      | [] =>
        simp [parseTypeEqTo, parseTypeOrLifetime] at h
        subst h
        exact List.nil_suffix
      | .lifetime b :: r3 | .ident b :: r3 =>
        simp [parseTypeEqTo, parseTypeOrLifetime] at h
      | .eq :: r3 | .comma :: r3 | .colon :: r3 | .semi :: r3 | .star :: r3
      | .amp :: r3 | .lt :: r3 | .gt :: r3 | .lparen :: r3 | .rparen :: r3 =>
        simp [parseTypeEqTo, parseTypeOrLifetime] at h
        subst h
        exact (List.suffix_cons _ _).trans (List.suffix_cons _ _)
    | .ident x :: r2 | .lifetime x :: r2 | .comma :: r2 | .colon :: r2
    | .semi :: r2 | .star :: r2 | .amp :: r2 | .lt :: r2 | .gt :: r2
    | .lparen :: r2 | .rparen :: r2 =>
      simp [parseTypeEqTo, parseTypeOrLifetime] at h
      subst h
      exact List.suffix_cons _ _
  | .eq :: r1 | .comma :: r1 | .colon :: r1 | .semi :: r1 | .star :: r1
  | .amp :: r1 | .lt :: r1 | .gt :: r1 | .lparen :: r1 | .rparen :: r1 =>
    simp [parseTypeEqTo, parseTypeOrLifetime] at h
    subst h
    exact List.suffix_refl _

theorem parseTypeEqsAux_isOk_len (n : Nat) :
    ∀ toks : List Tok, toks.length ≤ n →
      (parseTypeEqsAux toks).isOk = specArgGrammar toks := by
  induction n with
  | zero =>
    intro toks hlen
    have h0 : toks = [] := List.eq_nil_of_length_eq_zero (Nat.le_zero.mp hlen)
    subst h0
    simp [parseTypeEqsAux, specArgGrammar, Except.isOk, Except.toBool]
  | succ n ih =>
    intro toks hlen
    match toks with
    | [] => simp [parseTypeEqsAux, specArgGrammar, Except.isOk, Except.toBool]
    | t :: ts =>
      rw [parseTypeEqsAux_cons]
      cases hp : parseTypeEqTo (t :: ts) with
      | error e2 =>
        have hfalse : specArgGrammar (t :: ts) = false := by
          cases hs : specArgGrammar (t :: ts) with
          | false => rfl
          | true =>
            exfalso
            obtain ⟨a, b, r, hshape⟩ := specArgGrammar_true_shape hs
            have hok : parseTypeEqTo (t :: ts) = .ok (⟨a, b⟩, r) :=
              parseTypeEqTo_ok_shape.mpr hshape
            rw [hp] at hok
            cases hok
        rw [hfalse]
        rfl
      | ok pr =>
        rcases pr with ⟨ent, r⟩
        have hshape := parseTypeEqTo_ok_shape.mp hp
        have hlen3 := parseTypeEqTo_length hp
        rw [hshape]
        cases r with
        | nil => simp [specArgGrammar, isSideTok_toTok, Except.isOk, Except.toBool]
        | cons x xs =>
          cases x
          case comma =>
            have hlen2 : xs.length ≤ n := by
              simp [List.length] at hlen3 hlen
              omega
            have hspec : specArgGrammar (ent.type_or_lifetime.toTok :: Tok.eq ::
                ent.param.toTok :: Tok.comma :: xs) = specArgGrammar xs := by
              simp [specArgGrammar, isSideTok_toTok]
            rw [hspec, ← ih xs hlen2]
            cases ha : parseTypeEqsAux xs <;> simp [Except.map, Except.isOk, Except.toBool, ha]
          all_goals simp [specArgGrammar, isSideTok_toTok, Except.isOk, Except.toBool]

theorem parseTypeEqsAux_error_suffix_len (n : Nat) :
    ∀ (toks : List Tok) (err : ParseErr), toks.length ≤ n →
      parseTypeEqsAux toks = .error err → err.rest <:+ toks := by
  induction n with
  | zero =>
    intro toks err hlen h
    have h0 : toks = [] := List.eq_nil_of_length_eq_zero (Nat.le_zero.mp hlen)
    subst h0
    simp [parseTypeEqsAux] at h
  | succ n ih =>
    intro toks err hlen h
    match toks with
    | [] => simp [parseTypeEqsAux] at h
    | t :: ts =>
      rw [parseTypeEqsAux_cons] at h
      cases hp : parseTypeEqTo (t :: ts) with
      | error e2 =>
        rw [hp] at h
        change Except.error e2 = Except.error err at h
        injection h with h2
        subst h2
        exact parseTypeEqTo_error_suffix hp
      | ok pr =>
        rcases pr with ⟨ent, r⟩
        have hshape := parseTypeEqTo_ok_shape.mp hp
        have hlen3 := parseTypeEqTo_length hp
        cases r with
        | nil =>
          rw [hp] at h
          change Except.ok [ent] = Except.error err at h
          cases h
        | cons x xs =>
          cases x
          case comma =>
            rw [hp] at h
            change (parseTypeEqsAux xs).map (ent :: ·) = Except.error err at h
            cases ha : parseTypeEqsAux xs with
            | error e3 =>
              rw [ha] at h
              simp only [Except.map] at h
              injection h with h2
              subst h2
              have hlen2 : xs.length ≤ n := by
                simp [List.length] at hlen3 hlen
                omega
              have hsuf := ih xs e3 hlen2 ha
              rw [hshape]
              exact hsuf.trans ⟨[_, _, _, _], rfl⟩
            | ok v =>
              rw [ha] at h
              simp [Except.map] at h
          all_goals
            rw [hp] at h
            injection h with h2
            rw [hshape, ← h2]
            exact ⟨[_, _, _], rfl⟩

theorem parseTypeEqsAux_isOk_spec (toks : List Tok) :
    (parseTypeEqsAux toks).isOk = specArgGrammar toks :=
  parseTypeEqsAux_isOk_len toks.length toks (Nat.le_refl _)

theorem parseTypeEqsAux_error_suffix {toks : List Tok} {err : ParseErr}
    (h : parseTypeEqsAux toks = .error err) : err.rest <:+ toks :=
  parseTypeEqsAux_error_suffix_len toks.length toks err (Nat.le_refl _) h

/-! ## Claim theorems -/

/-- C1: for every generic function and every substitution list that binds
all of the function's type parameters (with pairwise-distinct left-hand
identifiers), the instantiation arguments in the constant declaration
emitted by the Attribute Transform appear in the function's declared
generic-parameter order — the emitted argument list is
`f.generics.filterMap …`, a walk of the declared parameters in order — and
an attribute whose entries are any permutation of the same substitution
list produces the identical output. -/
theorem mono_order_preservation
    (attr1 attr2 : List Tok) (f : ItemFn) (teqs1 teqs2 : TypeEqs)
    (h1 : parseTypeEqs attr1 = .ok teqs1) (h2 : parseTypeEqs attr2 = .ok teqs2)
    (hperm : teqs1.eqs.Perm teqs2.eqs)
    (hnodup : (teqs1.eqs.filterMap lhsTypeIdent).Nodup)
    (hbound : ∀ i, GenericParam.type i ∈ f.generics →
      (teqs1.eqs.find? (matchEq (.type i))).isSome = true) :
    mono attr1 f = .ok (emitMonoConst f.fnIdent
      (f.generics.filterMap fun g => (teqs1.eqs.find? (matchEq g)).map TypeEqTo.param)
      ++ f.toks)
    ∧ mono attr2 f = mono attr1 f := by
  have huniq : ∀ g : GenericParam, ∀ x ∈ teqs1.eqs, ∀ y ∈ teqs1.eqs,
      matchEq g x = true → matchEq g y = true → x = y := by
    intro g x hx y hy hgx hgy
    exact lhs_unique_of_nodup _ hnodup x hx y hy g hgx hgy
  have hfind : ∀ g, teqs2.eqs.find? (matchEq g) = teqs1.eqs.find? (matchEq g) :=
    fun g => (find?_congr_perm (matchEq g) hperm (huniq g)).symm
  have hsome1 : (monoParams f.generics teqs1.eqs).isSome = true :=
    (monoParams_isSome_iff _ _).mpr hbound
  rcases hv1 : monoParams f.generics teqs1.eqs with _ | ps1
  · rw [hv1] at hsome1
    cases hsome1
  have hps1 := monoParams_eq_filterMap _ _ _ hv1
  have hbound2 : ∀ i, GenericParam.type i ∈ f.generics →
      (teqs2.eqs.find? (matchEq (.type i))).isSome = true := by
    intro i hi
    rw [hfind]
    exact hbound i hi
  have hsome2 : (monoParams f.generics teqs2.eqs).isSome = true :=
    (monoParams_isSome_iff _ _).mpr hbound2
  rcases hv2 : monoParams f.generics teqs2.eqs with _ | ps2
  · rw [hv2] at hsome2
    cases hsome2
  have hps2 := monoParams_eq_filterMap _ _ _ hv2
  have hps_eq : ps2 = ps1 := by
    rw [hps1, hps2]
    exact List.filterMap_congr fun g _ => by rw [hfind]
  constructor
  · rw [← hps1]
    simp [mono, h1, hv1]
  · simp [mono, h1, h2, hv1, hv2, hps_eq]

/-- C1 witness: `fn foo<T, U, V>` with the attribute written `V = D, T = A,
U = B` emits the arguments in declared order `[A, B, D]`, and the
permutation `T = A, U = B, V = D` yields the identical expansion. -/
theorem mono_order_preservation_witness :
    mono [Tok.ident "V", Tok.eq, Tok.ident "D", Tok.comma,
          Tok.ident "T", Tok.eq, Tok.ident "A", Tok.comma,
          Tok.ident "U", Tok.eq, Tok.ident "B"]
        ⟨[Tok.ident "fn", Tok.ident "foo"], "foo",
         [GenericParam.type "T", GenericParam.type "U", GenericParam.type "V"], 0⟩
      = .ok (emitMonoConst "foo"
          [TypeOrLifetime.type "A", TypeOrLifetime.type "B", TypeOrLifetime.type "D"]
          ++ [Tok.ident "fn", Tok.ident "foo"])
    ∧ mono [Tok.ident "T", Tok.eq, Tok.ident "A", Tok.comma,
            Tok.ident "U", Tok.eq, Tok.ident "B", Tok.comma,
            Tok.ident "V", Tok.eq, Tok.ident "D"]
        ⟨[Tok.ident "fn", Tok.ident "foo"], "foo",
         [GenericParam.type "T", GenericParam.type "U", GenericParam.type "V"], 0⟩
      = mono [Tok.ident "V", Tok.eq, Tok.ident "D", Tok.comma,
              Tok.ident "T", Tok.eq, Tok.ident "A", Tok.comma,
              Tok.ident "U", Tok.eq, Tok.ident "B"]
          ⟨[Tok.ident "fn", Tok.ident "foo"], "foo",
           [GenericParam.type "T", GenericParam.type "U", GenericParam.type "V"], 0⟩ := by
  have h := mono_order_preservation
    [Tok.ident "V", Tok.eq, Tok.ident "D", Tok.comma,
     Tok.ident "T", Tok.eq, Tok.ident "A", Tok.comma,
     Tok.ident "U", Tok.eq, Tok.ident "B"]
    [Tok.ident "T", Tok.eq, Tok.ident "A", Tok.comma,
     Tok.ident "U", Tok.eq, Tok.ident "B", Tok.comma,
     Tok.ident "V", Tok.eq, Tok.ident "D"]
    ⟨[Tok.ident "fn", Tok.ident "foo"], "foo",
     [GenericParam.type "T", GenericParam.type "U", GenericParam.type "V"], 0⟩
    ⟨[⟨.type "V", .type "D"⟩, ⟨.type "T", .type "A"⟩, ⟨.type "U", .type "B"⟩]⟩
    ⟨[⟨.type "T", .type "A"⟩, ⟨.type "U", .type "B"⟩, ⟨.type "V", .type "D"⟩]⟩
    (by simp [parseTypeEqs, parseTypeEqsAux, parseTypeEqTo, parseTypeOrLifetime,
      Except.map])
    (by simp [parseTypeEqs, parseTypeEqsAux, parseTypeEqTo, parseTypeOrLifetime,
      Except.map])
    (by decide)
    (by decide)
    (by
      intro i hi
      simp only [List.mem_cons, List.not_mem_nil, or_false,
        GenericParam.type.injEq] at hi
      rcases hi with rfl | rfl | rfl <;> decide)
  exact ⟨by rw [h.1]; rfl, h.2⟩

/-- C2: when a type parameter has no matching substitution entry, `mono`
fails with the incomplete-instantiation error at the span of the function
signature, and emits no constant declaration.  The split
`gs1 ++ type i :: gs2` puts the first unmatched type parameter at `i` (all
earlier type parameters are matched), and the conclusion holds for every
tail `gs2`, so parameters after the first unmatched one are never
consulted and no further missing parameters are collected. -/
theorem mono_incomplete_error
    (attr : List Tok) (f : ItemFn) (teqs : TypeEqs)
    (gs1 gs2 : List GenericParam) (i : String)
    (hparse : parseTypeEqs attr = .ok teqs)
    (hsplit : f.generics = gs1 ++ GenericParam.type i :: gs2)
    (hbefore : ∀ j, GenericParam.type j ∈ gs1 →
      (teqs.eqs.find? (matchEq (.type j))).isSome = true)
    (hmiss : teqs.eqs.find? (matchEq (.type i)) = none) :
    mono attr f = .error (.incomplete f.sigSpan
      "all the type parameters should be spelled out") := by
  have hnone := monoParams_split_none gs1 i gs2 teqs.eqs hbefore hmiss
  simp [mono, hparse, hsplit, hnone]

/-- C2 witness: `fn foo<T, U, W>` with only `T = i32` fails with the
incomplete-instantiation error at the signature span (5), regardless of
the trailing parameter `W`. -/
theorem mono_incomplete_error_witness :
    mono [Tok.ident "T", Tok.eq, Tok.ident "i32"]
        ⟨[Tok.ident "fn", Tok.ident "foo"], "foo",
         [GenericParam.type "T", GenericParam.type "U", GenericParam.type "W"], 5⟩
      = .error (.incomplete 5 "all the type parameters should be spelled out") :=
  mono_incomplete_error
    [Tok.ident "T", Tok.eq, Tok.ident "i32"]
    ⟨[Tok.ident "fn", Tok.ident "foo"], "foo",
     [GenericParam.type "T", GenericParam.type "U", GenericParam.type "W"], 5⟩
    ⟨[⟨.type "T", .type "i32"⟩]⟩
    [GenericParam.type "T"] [GenericParam.type "W"] "U"
    (by simp [parseTypeEqs, parseTypeEqsAux, parseTypeEqTo, parseTypeOrLifetime,
      Except.map])
    rfl
    (by
      intro j hj
      simp only [List.mem_cons, List.not_mem_nil, or_false,
        GenericParam.type.injEq] at hj
      subst hj
      decide)
    (by decide)

/-- C3 counterexample: `fn foo<'a>` under the attribute `'a = 'static`.
The claim says the lifetime entry matches the lifetime parameter and
`'static` becomes the argument at that position, so the emitted arguments
would be `['static]`; the code (whose lifetime match arm is commented out,
lib.rs 109) emits the empty argument list instead. -/
theorem mono_lifetime_match_counterexample :
    mono [Tok.lifetime "a", Tok.eq, Tok.lifetime "static"]
        ⟨[Tok.ident "fn", Tok.ident "foo"], "foo", [GenericParam.lifetime "a"], 0⟩
      = .ok (emitMonoConst "foo" [] ++ [Tok.ident "fn", Tok.ident "foo"])
    ∧ emitMonoConst "foo" []
        ≠ emitMonoConst "foo" [TypeOrLifetime.lifetime "static"] := by
  constructor
  · simp [mono, parseTypeEqs, parseTypeEqsAux, parseTypeEqTo, parseTypeOrLifetime,
      Except.map, monoParams, matchEq]
  · decide

/-- C3 amended: in the matching pass, a substitution entry whose left-hand
side is a lifetime never matches any generic parameter (the lifetime match
arm is commented out in the source), and a lifetime parameter is skipped
outright: it contributes no argument to the emitted instantiation list,
whether or not a same-named lifetime entry is present. -/
theorem mono_lifetime_entry_never_matches
    (g : GenericParam) (l : String) (v : TypeOrLifetime)
    (gs1 gs2 : List GenericParam) (eqs : List TypeEqTo) :
    matchEq g ⟨TypeOrLifetime.lifetime l, v⟩ = false
    ∧ monoParams (gs1 ++ GenericParam.lifetime l :: gs2) eqs
        = monoParams (gs1 ++ gs2) eqs :=
  ⟨matchEq_lifetime_lhs g l v, monoParams_skip_lifetime gs1 gs2 l eqs⟩

/-- C4: when every type parameter is bound by the substitution list, an
unmatched lifetime parameter never makes `mono` fail: the expansion
succeeds, and the output is the same as for the function without that
lifetime parameter — the lifetime contributes no argument to the emitted
instantiation list. -/
theorem mono_lifetime_permissive
    (attr : List Tok) (teqs : TypeEqs) (toks : List Tok) (name : String)
    (span : Nat) (gs1 gs2 : List GenericParam) (l : String)
    (hparse : parseTypeEqs attr = .ok teqs)
    (hbound : ∀ i, GenericParam.type i ∈ gs1 ++ GenericParam.lifetime l :: gs2 →
      (teqs.eqs.find? (matchEq (.type i))).isSome = true) :
    (mono attr ⟨toks, name, gs1 ++ GenericParam.lifetime l :: gs2, span⟩).isOk = true
    ∧ mono attr ⟨toks, name, gs1 ++ GenericParam.lifetime l :: gs2, span⟩
        = mono attr ⟨toks, name, gs1 ++ gs2, span⟩ := by
  have hskip := monoParams_skip_lifetime gs1 gs2 l teqs.eqs
  have hsome : (monoParams (gs1 ++ GenericParam.lifetime l :: gs2) teqs.eqs).isSome
      = true := (monoParams_isSome_iff _ _).mpr hbound
  rcases hv : monoParams (gs1 ++ GenericParam.lifetime l :: gs2) teqs.eqs with _ | ps
  · rw [hv] at hsome
    cases hsome
  · rw [hv] at hskip
    constructor
    · simp [mono, hparse, hv, Except.isOk, Except.toBool]
    · simp [mono, hparse, hv, ← hskip]

/-- C4 witness: `fn foo<'a, T>` with only `T = i32` expands successfully,
and identically to `fn foo<T>`. -/
theorem mono_lifetime_permissive_witness :
    (mono [Tok.ident "T", Tok.eq, Tok.ident "i32"]
        ⟨[Tok.ident "fn", Tok.ident "foo"], "foo",
         [GenericParam.lifetime "a", GenericParam.type "T"], 0⟩).isOk = true
    ∧ mono [Tok.ident "T", Tok.eq, Tok.ident "i32"]
        ⟨[Tok.ident "fn", Tok.ident "foo"], "foo",
         [GenericParam.lifetime "a", GenericParam.type "T"], 0⟩
      = mono [Tok.ident "T", Tok.eq, Tok.ident "i32"]
          ⟨[Tok.ident "fn", Tok.ident "foo"], "foo", [GenericParam.type "T"], 0⟩ :=
  mono_lifetime_permissive
    [Tok.ident "T", Tok.eq, Tok.ident "i32"]
    ⟨[⟨.type "T", .type "i32"⟩]⟩
    [Tok.ident "fn", Tok.ident "foo"] "foo" 0
    [] [GenericParam.type "T"] "a"
    (by simp [parseTypeEqs, parseTypeEqsAux, parseTypeEqTo, parseTypeOrLifetime,
      Except.map])
    (by
      intro i hi
      simp only [List.nil_append, List.mem_cons, List.not_mem_nil, or_false,
        GenericParam.type.injEq, reduceCtorEq, false_or] at hi
      subst hi
      decide)

/-- C5: whenever `mono` succeeds, its output is exactly the synthesized
constant declaration immediately followed by the original function item's
token stream (`f.toks`, which carries the signature, body, visibility and
any other attached attributes) unchanged. -/
theorem mono_passthrough (attr : List Tok) (f : ItemFn) (out : List Tok)
    (h : mono attr f = .ok out) :
    ∃ (teqs : TypeEqs) (params : List TypeOrLifetime),
      parseTypeEqs attr = .ok teqs
      ∧ monoParams f.generics teqs.eqs = some params
      ∧ out = emitMonoConst f.fnIdent params ++ f.toks := by
  rcases hp : parseTypeEqs attr with e | teqs
  · simp [mono, hp] at h
  · rcases hv : monoParams f.generics teqs.eqs with _ | ps
    · simp [mono, hp, hv] at h
    · refine ⟨teqs, ps, rfl, hv, ?_⟩
      simp only [mono, hp, hv] at h
      exact (Except.ok.inj h).symm

/-- C5 witness: `fn foo<T>` with `T = i32`; the output is the constant
declaration followed by the untouched original tokens. -/
theorem mono_passthrough_witness :
    ∃ (teqs : TypeEqs) (params : List TypeOrLifetime),
      parseTypeEqs [Tok.ident "T", Tok.eq, Tok.ident "i32"] = .ok teqs
      ∧ monoParams [GenericParam.type "T"] teqs.eqs = some params
      ∧ emitMonoConst "foo" [TypeOrLifetime.type "i32"]
          ++ [Tok.ident "fn", Tok.ident "foo"]
        = emitMonoConst "foo" params ++ [Tok.ident "fn", Tok.ident "foo"] :=
  mono_passthrough
    [Tok.ident "T", Tok.eq, Tok.ident "i32"]
    ⟨[Tok.ident "fn", Tok.ident "foo"], "foo", [GenericParam.type "T"], 0⟩
    (emitMonoConst "foo" [TypeOrLifetime.type "i32"]
      ++ [Tok.ident "fn", Tok.ident "foo"])
    (by simp [mono, parseTypeEqs, parseTypeEqsAux, parseTypeEqTo,
      parseTypeOrLifetime, Except.map, monoParams, matchEq])

/-- C6: both transforms are deterministic pure functions of their inputs —
the embedding is stateless by construction, faithfully to the source,
which keeps no state across invocations (no statics, no I/O, no
randomness): two invocations of `mono` on identical attribute and function
inputs, and two invocations of the path transform on the same parser and
path input, yield identical token output. -/
theorem transforms_deterministic :
    (∀ (attr : List Tok) (f : ItemFn), mono attr f = mono attr f)
    ∧ ∀ (parsePath : List Tok → Except ParseErr TypePath) (input : List Tok),
        monoMacro parsePath input = monoMacro parsePath input :=
  ⟨fun _ _ => rfl, fun _ _ => rfl⟩

/-- C7: the Path Transform fails exactly when its input fails to parse as
a type-qualified path (the parse failure is returned as the diagnostic,
with no declaration emitted), and on success it emits exactly the one
constant declaration `pathConstHead ++ path ++ pathConstTail` with the
parsed path's tokens spliced verbatim, untouched, between the fixed head
and tail. -/
theorem monoMacro_path_transform
    (parsePath : List Tok → Except ParseErr TypePath) (input : List Tok) :
    ((monoMacro parsePath input).isOk = (parsePath input).isOk)
    ∧ (∀ e, parsePath input = .error e → monoMacro parsePath input = .error e)
    ∧ (∀ p, parsePath input = .ok p →
        monoMacro parsePath input = .ok (pathConstHead ++ p.toks ++ pathConstTail)) := by
  refine ⟨?_, ?_, ?_⟩
  · rcases hp : parsePath input with e | p <;>
      simp [monoMacro, hp, Except.isOk, Except.toBool]
  · intro e he
    simp [monoMacro, he]
  · intro p hp
    simp [monoMacro, hp, emitPathConst]

/-- C7 witness: a parser that accepts the tokens of
`<Foo as Tr>::foo` verbatim; the emitted declaration splices exactly those
tokens between the fixed head and tail. -/
theorem monoMacro_path_transform_witness :
    monoMacro (fun t => .ok ⟨t⟩)
        [Tok.lt, Tok.ident "Foo", Tok.ident "as", Tok.ident "Tr", Tok.gt,
         Tok.colon, Tok.colon, Tok.ident "foo"]
      = .ok (pathConstHead ++
          [Tok.lt, Tok.ident "Foo", Tok.ident "as", Tok.ident "Tr", Tok.gt,
           Tok.colon, Tok.colon, Tok.ident "foo"] ++ pathConstTail) :=
  (monoMacro_path_transform (fun t => .ok ⟨t⟩)
    [Tok.lt, Tok.ident "Foo", Tok.ident "as", Tok.ident "Tr", Tok.gt,
     Tok.colon, Tok.colon, Tok.ident "foo"]).2.2 _ rfl

/-- C8: the Argument Parser accepts exactly the comma-separated lists of
`side '=' side` entries (trailing comma and the empty list permitted) —
its success coincides with the spec-modelled grammar `specArgGrammar` —
each side parses as a lifetime exactly when the next token is a lifetime
and as a plain identifier otherwise, and on any other token shape it fails
with a `ParseError` whose recorded position is a suffix of the input
starting at the offending token. -/
theorem argumentParser_grammar :
    (∀ toks : List Tok, (parseTypeEqs toks).isOk = specArgGrammar toks)
    ∧ (∀ (s : String) (rest : List Tok),
        parseTypeOrLifetime (Tok.lifetime s :: rest) = .ok (.lifetime s, rest))
    ∧ (∀ (s : String) (rest : List Tok),
        parseTypeOrLifetime (Tok.ident s :: rest) = .ok (.type s, rest))
    ∧ (∀ (toks : List Tok) (err : ParseErr),
        parseTypeEqs toks = .error err → err.rest <:+ toks) := by
  refine ⟨?_, fun s rest => rfl, fun s rest => rfl, ?_⟩
  · intro toks
    rw [← parseTypeEqsAux_isOk_spec]
    cases h : parseTypeEqsAux toks <;>
      simp [parseTypeEqs, h, Except.map, Except.isOk, Except.toBool]
  · intro toks err h
    rcases ha : parseTypeEqsAux toks with e | v
    · simp only [parseTypeEqs, ha, Except.map] at h
      rcases Except.error.inj h with rfl
      exact parseTypeEqsAux_error_suffix ha
    · simp [parseTypeEqs, ha, Except.map] at h

/-- C8 witness: the input `T = i32 , ,` fails at the second comma; the
error's recorded rest `[,]` is a suffix of the input starting at that
token. -/
theorem argumentParser_grammar_witness :
    ParseErr.rest ⟨[Tok.comma]⟩ <:+
      [Tok.ident "T", Tok.eq, Tok.ident "i32", Tok.comma, Tok.comma] :=
  argumentParser_grammar.2.2.2
    [Tok.ident "T", Tok.eq, Tok.ident "i32", Tok.comma, Tok.comma]
    ⟨[Tok.comma]⟩
    (by simp [parseTypeEqs, parseTypeEqsAux, parseTypeEqTo, parseTypeOrLifetime,
      Except.map])

/-- C9: a non-generic function processed with an empty substitution list
expands successfully: the emitted constant declaration takes a reference
to the function with an empty instantiation-argument list, followed by the
unchanged function tokens. -/
theorem mono_nongeneric_empty_attr (toks : List Tok) (name : String) (span : Nat) :
    mono [] ⟨toks, name, [], span⟩ = .ok (emitMonoConst name [] ++ toks) := by
  simp [mono, parseTypeEqs, parseTypeEqsAux, monoParams, Except.map]

/-- C10: for a type parameter `i`, when the substitution list contains
several entries whose left-hand side matches `i`, the matching pass uses
the first such entry in written left-to-right order (`find?` returns it)
and the parameter contributes that entry's replacement; the later
duplicates — whatever `post` contains — are ignored and never cause an
error. -/
theorem mono_duplicate_first_wins
    (i : String) (e : TypeEqTo) (pre post : List TypeEqTo)
    (gs : List GenericParam)
    (hpre : ∀ x ∈ pre, matchEq (.type i) x = false)
    (he : matchEq (.type i) e = true) :
    (pre ++ e :: post).find? (matchEq (.type i)) = some e
    ∧ monoParams (GenericParam.type i :: gs) (pre ++ e :: post)
        = (monoParams gs (pre ++ e :: post)).map (e.param :: ·) := by
  have hnone : pre.find? (matchEq (.type i)) = none :=
    List.find?_eq_none.mpr (by intro x hx; simp [hpre x hx])
  have hfind : (pre ++ e :: post).find? (matchEq (.type i)) = some e := by
    rw [List.find?_append, hnone]
    simp [List.find?_cons_of_pos, he]
  exact ⟨hfind, by simp [monoParams, hfind]⟩

/-- C10 witness: `fn foo<T>` with `T = i32, T = u8`: the first entry wins —
the emitted argument is `i32` — and the duplicate is not an error. -/
theorem mono_duplicate_first_wins_witness :
    ([] ++ (⟨.type "T", .type "i32"⟩ : TypeEqTo) :: [⟨.type "T", .type "u8"⟩]).find?
        (matchEq (.type "T")) = some ⟨.type "T", .type "i32"⟩
    ∧ monoParams (GenericParam.type "T" :: [])
        ([] ++ (⟨.type "T", .type "i32"⟩ : TypeEqTo) :: [⟨.type "T", .type "u8"⟩])
      = (monoParams []
          ([] ++ (⟨.type "T", .type "i32"⟩ : TypeEqTo) :: [⟨.type "T", .type "u8"⟩])).map
          ((⟨.type "T", .type "i32"⟩ : TypeEqTo).param :: ·) :=
  mono_duplicate_first_wins "T" ⟨.type "T", .type "i32"⟩ []
    [⟨.type "T", .type "u8"⟩] []
    (by intro x hx; cases hx)
    (by decide)

end MonoMacro
